import Mathlib

/-!
Verification of the Action_Classification repository (src/dataset.py).

The file embeds the two components of dataset.py:
- `HMDB51`: a video dataset wrapper that discovers class-labelled video files
  under a train/test split, hands the paths to an external clip-indexing
  utility (torchvision VideoClips), keeps an index mapping from clip back to
  source video, and exposes a per-item accessor.
- `BuildDataLoader`: a loader wrapper holding batch configuration, a collation
  function that stacks clips into batches, and a factory for the external
  iteration object.

External collaborators (torchvision VideoClips, torch.stack, torch DataLoader,
the filesystem) are modelled explicitly; each model carries a comment saying
what it stands for.  Machine details that the claims do not touch (actual
video decoding, the VisionDataset base class which only stores root) are kept
abstract.
-/

namespace ActionClassification

/-! ### String ordering and sorting

Python compares strings lexicographically by code point, case-sensitively.
`lexLe` is that order on the underlying character lists; `pySorted` models the
Python builtin `sorted` on strings (ascending, and on duplicate-free inputs
the output of any correct sort is unique, so the choice of sorting algorithm
is immaterial). -/

def lexLe : List Char → List Char → Bool
  | [], _ => true
  | _ :: _, [] => false
  | a :: as, b :: bs => if a < b then true else if b < a then false else lexLe as bs

def strLeB (a b : String) : Bool := lexLe a.data b.data

def pySorted (l : List String) : List String :=
  l.insertionSort (fun a b => strLeB a b = true)

/-- Models `sorted(os.walk(dir))`: `os.walk` yields tuples whose first
component is the directory path, and since the directory paths of one walk are
pairwise distinct, Python tuple comparison on them is comparison of the first
component.  Entries are modelled as (directory, filenames) pairs; the middle
component of the walk triple (subdirectory names) is unused by the code. -/
def pySortedWalk (l : List (String × List String)) : List (String × List String) :=
  l.insertionSort (fun p q => strLeB p.1 q.1 = true)

/-- Models `os.path.join(a, b)` for the relative-name second arguments the
code produces (directory entries and walk roots): concatenation with a
separator. -/
def pathJoin (a b : String) : String := a ++ "/" ++ b

/-! ### Tensors and external torch primitives -/

/-- A tensor is modelled as a shape together with flat data. -/
structure Tensor where
  shape : List Nat
  data : List Int
deriving DecidableEq

/-- Models `torch.stack` on a list of tensors: stacking along a new leading
dimension.  An empty list and mismatched shapes raise in torch; both are
modelled as `none`. -/
def torchStack : List Tensor → Option Tensor
  | [] => none
  | t :: rest =>
    if rest.all (fun u => u.shape == t.shape) then
      some { shape := (t :: rest).length :: t.shape
             data := ((t :: rest).map Tensor.data).flatten }
    else none

/-! ### Filesystem model

The directory tree the constructor scans, as the three operations the code
uses: `list_dir` (immediate subdirectories, torchvision list_dir), `walk`
(recursive walk with followlinks=True, os.walk, in raw traversal order,
as (directory, filenames) pairs), and `isfile` (os.path.isfile). -/

structure FileSystem where
  list_dir : String → List String
  walk : String → List (String × List String)
  isfile : String → Bool

/-! ### The external clip-indexing collaborator -/

/-- Opaque payload of a clip-info record returned by get_clip. -/
structure ClipInfo where
  val : Nat
deriving DecidableEq

/-- Opaque payload of the metadata object of a clip collection. -/
structure VideoMetadata where
  val : Nat
deriving DecidableEq

/-- One clip of the external collection: the video tensor, the audio tensor,
the clip info, and the index of the source video that produced the clip. -/
structure Clip where
  video : Tensor
  audio : Tensor
  info : ClipInfo
  video_idx : Nat
deriving DecidableEq

/-- Modelled from the spec: the external clip-indexing collaborator
(torchvision VideoClips).  It manages the list of clips derived from a list
of source videos, each clip tagged with its source video index, plus a
metadata object enabling reconstruction without re-scanning.  How clips are
derived from video files is video decoding and stays abstract; theorems take
the produced collection as a parameter. -/
structure VideoClips where
  clips : List Clip
  metadata : VideoMetadata
deriving DecidableEq

/-- Modelled from the spec: `num_clips()` of the external collection. -/
def VideoClips.num_clips (vc : VideoClips) : Nat := vc.clips.length

/-- Modelled from the spec: `get_clip(index)` returns
(video, audio, info, source video index); out-of-range raises (`none`). -/
def VideoClips.get_clip (vc : VideoClips) (i : Nat) : Option Clip := vc.clips[i]?

/-- Modelled from the spec: `subset(index_list)` restricts the collection to
the clips of the listed source videos; source indices of the kept clips are
remapped to positions inside `idxs`, so that the returned video index of a
clip indexes into the retained video list. -/
def VideoClips.subset (vc : VideoClips) (idxs : List Nat) : VideoClips :=
  { clips := (vc.clips.filter (fun c => idxs.contains c.video_idx)).map
      (fun c => { c with video_idx := idxs.indexOf c.video_idx })
    metadata := vc.metadata }

/-- The clip-windowing arguments that `HMDB51.__init__` forwards verbatim to
the external VideoClips construction. -/
structure ClipParams where
  frames_per_clip : Nat
  step_between_clips : Nat
  frame_rate : Option Nat
  num_workers : Nat
  video_width : Nat
  video_height : Nat
  video_min_dimension : Nat
  audio_samples : Nat
deriving DecidableEq

/-! ### The HMDB51 dataset (src/dataset.py lines 9-91) -/

structure HMDB51 where
  train : Bool
  classes : List String
  samples : List (String × Nat)
  video_clips_metadata : VideoMetadata
  indices : List Nat
  video_clips : VideoClips
  transform : Option (Tensor → Tensor)

/-- Embeds `HMDB51.get_indices` (lines 74-78): a loop over
`enumerate(video_list)` appending each video index. -/
def HMDB51.get_indices (video_list : List String) : List Nat :=
  video_list.enum.foldl (fun indices p => indices ++ [p.1]) []

/-- Embeds the sample-collection loop of `HMDB51.__init__` (lines 39-48).
The code iterates `for target_class in sorted(class_to_idx.keys())` with
`class_index = class_to_idx[target_class]`; since `classes` is already sorted
and a directory listing has no duplicate names, this is iteration over
`classes` in order with the enumeration position as class index.  Inside, it
walks the class directory in sorted order, and for each sorted file name
appends (joined path, class index) when the path is a regular file. -/
def HMDB51.buildSamples (fs : FileSystem) (split_root : String)
    (classes : List String) : List (String × Nat) :=
  classes.enum.foldl (fun samples ci =>
    let target_dir := pathJoin split_root ci.2
    (pySortedWalk (fs.walk target_dir)).foldl (fun samples₂ entry =>
      (pySorted entry.2).foldl (fun samples₃ fname =>
        if fs.isfile (pathJoin entry.1 fname)
        then samples₃ ++ [(pathJoin entry.1 fname, ci.1)] else samples₃)
        samples₂)
      samples)
    []

/-- Embeds the dict comprehension of line 38:
`class_to_idx = {class_: i for (i, class_) in enumerate(classes)}`,
as an association list. -/
def classToIdx (classes : List String) : List (String × Nat) :=
  classes.enum.map (fun p => (p.2, p.1))

/-- Embeds `HMDB51.__init__` (lines 27-68).  `mkVideoClips` stands for the
external VideoClips construction on (video paths, windowing parameters,
precomputed metadata); the superclass call only stores root and is dropped.
The local `extensions` tuple of line 32 is bound and, as in the code, never
read again. -/
def HMDB51.init (fs : FileSystem)
    (mkVideoClips : List String → ClipParams → Option VideoMetadata → VideoClips)
    (root : String) (params : ClipParams) (train : Bool)
    (transform : Option (Tensor → Tensor))
    (precomputed_metadata : Option VideoMetadata) : HMDB51 :=
  let extensions : List String := ["avi"]
  let split_root := if train then root ++ "/train" else root ++ "/test"
  let classes := pySorted (fs.list_dir split_root)
  let samples := HMDB51.buildSamples fs split_root classes
  let video_paths := samples.map Prod.fst
  let video_clips := mkVideoClips video_paths params precomputed_metadata
  let indices := HMDB51.get_indices video_paths
  { train := train
    classes := classes
    samples := samples
    video_clips_metadata := video_clips.metadata
    indices := indices
    video_clips := video_clips.subset indices
    transform := transform }

/-- Embeds the `metadata` property (lines 70-72). -/
def HMDB51.metadata (ds : HMDB51) : VideoMetadata := ds.video_clips_metadata

/-- Embeds `HMDB51.__len__` (lines 80-81). -/
def HMDB51.len (ds : HMDB51) : Nat := ds.video_clips.num_clips

/-- Embeds `HMDB51.__getitem__` (lines 83-91): fetch the clip (audio and info
are discarded), map the returned source video index through `indices`, read
the label of that sample, apply the optional transform, return
(video, label).  List indexing errors propagate as `none`. -/
def HMDB51.getitem (ds : HMDB51) (idx : Nat) : Option (Tensor × Nat) :=
  match ds.video_clips.get_clip idx with
  | none => none
  | some c =>
    match ds.indices[c.video_idx]? with
    | none => none
    | some sample_index =>
      match ds.samples[sample_index]? with
      | none => none
      | some s =>
        let video := match ds.transform with
          | some t => t c.video
          | none => c.video
        some (video, s.2)

/-! State-transformer views of the three read operations.  Each Python method
body contains no assignment to `self`, so its statement-by-statement embedding
threads the receiver through unchanged. -/

def HMDB51.lenOp (ds : HMDB51) : Nat × HMDB51 := (ds.len, ds)

def HMDB51.getitemOp (ds : HMDB51) (idx : Nat) :
    Option (Tensor × Nat) × HMDB51 := (ds.getitem idx, ds)

def HMDB51.metadataOp (ds : HMDB51) : VideoMetadata × HMDB51 := (ds.metadata, ds)

/-! ### The loader (src/dataset.py lines 96-129) -/

/-- The batch record `collect_fn` returns: a dict with exactly the two fields
videos and labels. -/
structure Batch where
  videos : Tensor
  labels : List Nat
deriving DecidableEq

/-- Embeds `BuildDataLoader.__init__` (lines 97-101): the four stored
configuration attributes. -/
structure BuildDataLoader where
  dataset : HMDB51
  batch_size : Nat
  shuffle : Bool
  num_workers : Nat

/-- Embeds `BuildDataLoader.collect_fn` (lines 109-122): two lists are built
by appending the video and the label of each pair in order, then the videos
are stacked with torch.stack; the failure of stacking (empty batch or shape
mismatch) propagates as `none`.  The method does not read `self`. -/
def BuildDataLoader.collect_fn (batch : List (Tensor × Nat)) : Option Batch :=
  let video_list := batch.foldl (fun acc p => acc ++ [p.1]) []
  let label_list := batch.foldl (fun acc p => acc ++ [p.2]) []
  match torchStack video_list with
  | none => none
  | some v => some { videos := v, labels := label_list }

/-- The configuration record of the external torch DataLoader as
`BuildDataLoader.loader` constructs it (lines 124-129). -/
structure DataLoaderConfig where
  dataset : HMDB51
  batch_size : Nat
  shuffle : Bool
  num_workers : Nat
  collate_fn : List (Tensor × Nat) → Option Batch

/-- Embeds `BuildDataLoader.loader` (lines 124-129): a fresh DataLoader
configured with the stored dataset, batch size, shuffle flag, worker count,
and `collect_fn` as collation function. -/
def BuildDataLoader.loader (b : BuildDataLoader) : DataLoaderConfig :=
  { dataset := b.dataset
    batch_size := b.batch_size
    shuffle := b.shuffle
    num_workers := b.num_workers
    collate_fn := BuildDataLoader.collect_fn }

/-- Splits a list into consecutive chunks of size `bs` (the last chunk may be
shorter). -/
def chunkBatches (bs : Nat) : List α → List (List α)
  | [] => []
  | a :: l => (a :: l.take (bs - 1)) :: chunkBatches bs (l.drop (bs - 1))
termination_by l => l.length
decreasing_by simp [List.length_drop]; omega

/-- Modelled from the spec: one full pass of the external batch-iteration
collaborator (torch DataLoader) with shuffle disabled.  The spec states that
iteration then follows dataset index order 0..length-1 and produces
ceil(length / batch_size) batches, each batch being the collation input of
its consecutive index group.  The index sequence of such a pass is the
chunking of [0, ..., length-1]. -/
def dataLoaderBatches (cfg : DataLoaderConfig) : List (List Nat) :=
  chunkBatches cfg.batch_size (List.range cfg.dataset.len)

/-! ### Spec-side descriptions

Definitions in this block follow the words of the specification; the theorems
below compare them with the embedded code. -/

/-- Follows the spec words: the (file path, class index) pairs contributed by
one class directory — every regular file found by the recursive walk of the
directory, in order sorted by directory then file name, paired with the class
index. -/
def specClassSamples (fs : FileSystem) (dir : String) (i : Nat) :
    List (String × Nat) :=
  (pySortedWalk (fs.walk dir)).flatMap (fun entry =>
    (pySorted entry.2).filterMap (fun fname =>
      if fs.isfile (pathJoin entry.1 fname)
      then some (pathJoin entry.1 fname, i) else none))

/-- Follows the spec words: the sample list is the concatenation, over the
class directories taken in sorted class order, of each class directory
contribution, the class at sorted position i carrying index i. -/
def specSamples (fs : FileSystem) (split_root : String) (classes : List String) :
    List (String × Nat) :=
  classes.enum.flatMap (fun ci => specClassSamples fs (pathJoin split_root ci.2) ci.1)

/-! ### Ordering lemmas: lexLe is total and transitive -/

theorem lexLe_total : ∀ a b : List Char, lexLe a b = true ∨ lexLe b a = true := by
  intro a
  induction a with
  | nil => intro b; left; rfl
  | cons x xs ih =>
    intro b
    cases b with
    | nil => right; rfl
    | cons y ys =>
      by_cases h1 : x < y
      · left; simp [lexLe, h1]
      · by_cases h2 : y < x
        · right; simp [lexLe, h2]
        · rcases ih ys with h | h
          · left; simp [lexLe, h1, h2, h]
          · right; simp [lexLe, h1, h2, h]

theorem lexLe_trans :
    ∀ a b c : List Char, lexLe a b = true → lexLe b c = true → lexLe a c = true := by
  intro a
  induction a with
  | nil => intro b c _ _; rfl
  | cons x xs ih =>
    intro b c hab hbc
    cases b with
    | nil => simp [lexLe] at hab
    | cons y ys =>
      cases c with
      | nil => simp [lexLe] at hbc
      | cons z zs =>
        by_cases hxy : x < y
        · by_cases hyz : y < z
          · simp [lexLe, lt_trans hxy hyz]
          · by_cases hzy : z < y
            · simp [lexLe, hyz, hzy] at hbc
            · have : y = z := le_antisymm (le_of_not_lt hzy) (le_of_not_lt hyz)
              subst this
              simp [lexLe, hxy]
        · by_cases hyx : y < x
          · simp [lexLe, hxy, hyx] at hab
          · have hxyeq : x = y := le_antisymm (le_of_not_lt hyx) (le_of_not_lt hxy)
            subst hxyeq
            simp only [lexLe, if_neg hxy, if_neg hyx] at hab
            by_cases hyz : x < z
            · simp [lexLe, hyz]
            · by_cases hzy : z < x
              · simp [lexLe, hyz, hzy] at hbc
              · have : x = z := le_antisymm (le_of_not_lt hzy) (le_of_not_lt hyz)
                subst this
                simp only [lexLe, if_neg hyz, if_neg hzy] at hbc ⊢
                exact ih ys zs hab hbc

instance : IsTotal String (fun a b => strLeB a b = true) :=
  ⟨fun a b => lexLe_total a.data b.data⟩

instance : IsTrans String (fun a b => strLeB a b = true) :=
  ⟨fun a b c => lexLe_trans a.data b.data c.data⟩

instance : IsTotal (String × List String) (fun p q => strLeB p.1 q.1 = true) :=
  ⟨fun p q => lexLe_total p.1.data q.1.data⟩

instance : IsTrans (String × List String) (fun p q => strLeB p.1 q.1 = true) :=
  ⟨fun p q r => lexLe_trans p.1.data q.1.data r.1.data⟩

/-! ### Fold-accumulator lemmas: the append loops compute concatenations -/

theorem inner_foldl_eq (fs : FileSystem) (d : String) (i : Nat) :
    ∀ (fnames : List String) (acc : List (String × Nat)),
      fnames.foldl (fun s₃ fname =>
          if fs.isfile (pathJoin d fname)
          then s₃ ++ [(pathJoin d fname, i)] else s₃) acc
        = acc ++ fnames.filterMap (fun fname =>
            if fs.isfile (pathJoin d fname)
            then some (pathJoin d fname, i) else none) := by
  intro fnames
  induction fnames with
  | nil => intro acc; simp
  | cons f t ih =>
    intro acc
    by_cases h : fs.isfile (pathJoin d f) <;>
      simp [List.foldl_cons, List.filterMap_cons, h, ih, List.append_assoc]

theorem mid_foldl_eq (fs : FileSystem) (i : Nat) :
    ∀ (entries : List (String × List String)) (acc : List (String × Nat)),
      entries.foldl (fun s₂ entry =>
          (pySorted entry.2).foldl (fun s₃ fname =>
            if fs.isfile (pathJoin entry.1 fname)
            then s₃ ++ [(pathJoin entry.1 fname, i)] else s₃) s₂) acc
        = acc ++ entries.flatMap (fun entry =>
            (pySorted entry.2).filterMap (fun fname =>
              if fs.isfile (pathJoin entry.1 fname)
              then some (pathJoin entry.1 fname, i) else none)) := by
  intro entries
  induction entries with
  | nil => intro acc; simp
  | cons e t ih =>
    intro acc
    rw [List.foldl_cons, inner_foldl_eq fs e.1 i (pySorted e.2) acc, ih,
      List.flatMap_cons, List.append_assoc]

theorem buildSamples_eq_spec (fs : FileSystem) (split_root : String)
    (classes : List String) :
    HMDB51.buildSamples fs split_root classes = specSamples fs split_root classes := by
  unfold HMDB51.buildSamples specSamples
  have main : ∀ (l : List (Nat × String)) (acc : List (String × Nat)),
      l.foldl (fun samples ci =>
        (pySortedWalk (fs.walk (pathJoin split_root ci.2))).foldl (fun samples₂ entry =>
          (pySorted entry.2).foldl (fun samples₃ fname =>
            if fs.isfile (pathJoin entry.1 fname)
            then samples₃ ++ [(pathJoin entry.1 fname, ci.1)] else samples₃)
            samples₂)
          samples) acc
        = acc ++ l.flatMap (fun ci =>
            specClassSamples fs (pathJoin split_root ci.2) ci.1) := by
    intro l
    induction l with
    | nil => intro acc; simp
    | cons c t ih =>
      intro acc
      rw [List.foldl_cons,
        mid_foldl_eq fs c.1 (pySortedWalk (fs.walk (pathJoin split_root c.2))) acc,
        ih, List.flatMap_cons, List.append_assoc]
      rfl
  rw [main classes.enum [], List.nil_append]

theorem get_indices_eq_range (l : List String) :
    HMDB51.get_indices l = List.range l.length := by
  unfold HMDB51.get_indices
  have main : ∀ (e : List (Nat × String)) (acc : List Nat),
      e.foldl (fun indices p => indices ++ [p.1]) acc = acc ++ e.map Prod.fst := by
    intro e
    induction e with
    | nil => intro acc; simp
    | cons x t ih =>
      intro acc
      rw [List.foldl_cons, ih, List.map_cons, List.append_assoc]
      rfl
  rw [main l.enum [], List.nil_append, List.enum_map_fst]

/-! ### Index lemmas for the identity subset -/

theorem indexOf_cons_nat (a b : Nat) (l : List Nat) :
    (b :: l).indexOf a = if b = a then 0 else (l.indexOf a) + 1 := by
  simp [List.indexOf, List.findIdx_cons, Bool.cond_eq_ite]

theorem indexOf_map_succ (v : Nat) (l : List Nat) :
    (l.map Nat.succ).indexOf (v + 1) = l.indexOf v := by
  induction l with
  | nil => rfl
  | cons b t ih =>
    rw [List.map_cons, indexOf_cons_nat, indexOf_cons_nat, ih]
    have hbeq : (Nat.succ b = v + 1) ↔ (b = v) := by omega
    simp [hbeq]

theorem range_indexOf {v n : Nat} (h : v < n) : (List.range n).indexOf v = v := by
  induction n generalizing v with
  | zero => omega
  | succ m ih =>
    rw [List.range_succ_eq_map]
    cases v with
    | zero => rw [indexOf_cons_nat]; simp
    | succ w =>
      rw [indexOf_cons_nat, if_neg (by omega), indexOf_map_succ, ih (by omega)]

theorem range_contains {v n : Nat} (h : v < n) : (List.range n).contains v = true := by
  have : v ∈ List.range n := List.mem_range.mpr h
  exact List.elem_iff.mpr this

theorem subset_range_eq_self (vc : VideoClips) (n : Nat)
    (h : ∀ c ∈ vc.clips, c.video_idx < n) :
    vc.subset (List.range n) = vc := by
  unfold VideoClips.subset
  have hfilter :
      vc.clips.filter (fun c => (List.range n).contains c.video_idx) = vc.clips :=
    List.filter_eq_self.mpr fun c hc => range_contains (h c hc)
  rw [hfilter]
  have hmap : ∀ c ∈ vc.clips,
      ({ c with video_idx := (List.range n).indexOf c.video_idx } : Clip) = c := by
    intro c hc
    cases c
    simp [range_indexOf (h _ hc)]
  rw [List.map_congr_left hmap, List.map_id']

/-! ### Generic fold and chunk lemmas -/

theorem foldl_append_singleton {α β : Type _} (f : β → α) :
    ∀ (l : List β) (acc : List α),
      l.foldl (fun acc x => acc ++ [f x]) acc = acc ++ l.map f := by
  intro l
  induction l with
  | nil => intro acc; simp
  | cons x t ih =>
    intro acc
    rw [List.foldl_cons, ih, List.map_cons, List.append_assoc]
    rfl

theorem chunkBatches_flatten {α : Type _} (bs : Nat) :
    ∀ (l : List α), (chunkBatches bs l).flatten = l
  | [] => by simp [chunkBatches]
  | a :: l => by
    rw [chunkBatches, List.flatten_cons, chunkBatches_flatten bs (l.drop (bs - 1)),
      List.cons_append, List.take_append_drop]
termination_by l => l.length
decreasing_by simp [List.length_drop]; omega

theorem chunkBatches_length {α : Type _} (bs : Nat) (hbs : 0 < bs) :
    ∀ (l : List α), (chunkBatches bs l).length = (l.length + bs - 1) / bs
  | [] => by
    rw [chunkBatches]
    simp only [List.length_nil]
    symm
    apply Nat.div_eq_of_lt
    omega
  | a :: l => by
    rw [chunkBatches, List.length_cons,
      chunkBatches_length bs hbs (l.drop (bs - 1)), List.length_drop]
    rcases Nat.le_total (bs - 1) l.length with hle | hlt
    · have h1 : l.length - (bs - 1) + bs - 1 = l.length := by omega
      have h2 : (a :: l).length + bs - 1 = l.length + bs := by rw [List.length_cons]; omega
      rw [h1, h2, Nat.add_div_right _ hbs]
    · have h1 : l.length - (bs - 1) + bs - 1 = bs - 1 := by omega
      have h2 : (a :: l).length + bs - 1 = l.length + bs := by rw [List.length_cons]; omega
      rw [h1, h2, Nat.add_div_right _ hbs, Nat.div_eq_of_lt (by omega),
        Nat.div_eq_of_lt (by omega)]
termination_by l => l.length
decreasing_by simp [List.length_drop]; omega

theorem chunkBatches_mem {α : Type _} (bs : Nat) (hbs : 0 < bs) :
    ∀ (l : List α), ∀ c ∈ chunkBatches bs l, c.length ≤ bs ∧ c ≠ []
  | [] => by simp [chunkBatches]
  | a :: l => by
    intro c hc
    rw [chunkBatches] at hc
    rcases List.mem_cons.mp hc with h | h
    · subst h
      refine ⟨?_, by simp⟩
      rw [List.length_cons, List.length_take]
      have := Nat.min_le_left (bs - 1) l.length
      omega
    · exact chunkBatches_mem bs hbs (l.drop (bs - 1)) c h
termination_by l => l.length
decreasing_by simp [List.length_drop]; omega

/-- Evaluation of getitem once the three lookups are known to succeed. -/
theorem getitem_eq {ds : HMDB51} {i : Nat} {c : Clip} {si : Nat} {s : String × Nat}
    (h1 : ds.video_clips.get_clip i = some c)
    (h2 : ds.indices[c.video_idx]? = some si)
    (h3 : ds.samples[si]? = some s) :
    ds.getitem i = some ((match ds.transform with
      | some t => t c.video
      | none => c.video), s.2) := by
  simp [HMDB51.getitem, h1, h2, h3]

/-- Every element of a class-directory contribution carries the index of its
class as its label. -/
theorem specClassSamples_snd {fs : FileSystem} {d : String} {i : Nat}
    {s : String × Nat} (h : s ∈ specClassSamples fs d i) : s.2 = i := by
  unfold specClassSamples at h
  rw [List.mem_flatMap] at h
  obtain ⟨entry, _, h⟩ := h
  rw [List.mem_filterMap] at h
  obtain ⟨fname, _, h⟩ := h
  by_cases hf : fs.isfile (pathJoin entry.1 fname)
  · rw [if_pos hf, Option.some_inj] at h
    rw [← h]
  · rw [if_neg hf] at h
    cases h

/-! ### Concrete instances used by the witnesses -/

def egTensor : Tensor := { shape := [5, 2, 2, 3], data := [0] }

/-- A small concrete directory tree: train split with classes run and walk
(listed unsorted), one of the files not carrying the avi extension. -/
def egFS : FileSystem :=
  { list_dir := fun d => if d = "data/train" then ["walk", "run"]
      else if d = "data/test" then ["run"] else []
    walk := fun d =>
      if d = "data/train/run" then [("data/train/run", ["b.avi", "a.avi"])]
      else if d = "data/train/walk" then [("data/train/walk", ["c.txt"])]
      else if d = "data/test/run" then [("data/test/run", ["d.avi"])]
      else []
    isfile := fun _ => true }

/-- A concrete external clip collection: one clip per source video, tagged
with the source video index. -/
def egMkVideoClips : List String → ClipParams → Option VideoMetadata → VideoClips :=
  fun paths _ _ =>
    { clips := (List.range paths.length).map (fun v =>
        { video := egTensor, audio := egTensor, info := { val := v }, video_idx := v })
      metadata := { val := 7 } }

def egParams : ClipParams :=
  { frames_per_clip := 5, step_between_clips := 1, frame_rate := none
    num_workers := 1, video_width := 0, video_height := 0
    video_min_dimension := 0, audio_samples := 0 }

def egTrainDS : HMDB51 :=
  HMDB51.init egFS egMkVideoClips "data" egParams true none none

def egBDL : BuildDataLoader :=
  { dataset := egTrainDS, batch_size := 2, shuffle := false, num_workers := 0 }

def egT1 : Tensor := { shape := [2, 2], data := [1, 2, 3, 4] }

def egT2 : Tensor := { shape := [2, 2], data := [5, 6, 7, 8] }

/-! ### Claim theorems -/

/-- C4: construction with train=True resolves the split directory to
root + "/train" and otherwise to root + "/test"; the class list is the
immediate subdirectories of that split directory sorted by the case-sensitive
code-point lexicographic order (it is pairwise ordered and a permutation of
the raw listing), each class is assigned its zero-based position in that
sorted order, and on classes brush_hair and cartwheel the assignment is 0
and 1 respectively. -/
theorem split_resolution_and_class_sorting
    (fs : FileSystem)
    (mkVC : List String → ClipParams → Option VideoMetadata → VideoClips)
    (root : String) (params : ClipParams) (train : Bool)
    (transform : Option (Tensor → Tensor)) (pm : Option VideoMetadata) :
    (HMDB51.init fs mkVC root params train transform pm).classes
        = pySorted (fs.list_dir (if train then root ++ "/train" else root ++ "/test"))
      ∧ List.Sorted (fun a b => strLeB a b = true)
          (HMDB51.init fs mkVC root params train transform pm).classes
      ∧ ((HMDB51.init fs mkVC root params train transform pm).classes).Perm
          (fs.list_dir (if train then root ++ "/train" else root ++ "/test"))
      ∧ (∀ i c,
          (HMDB51.init fs mkVC root params train transform pm).classes[i]? = some c →
          (c, i) ∈ classToIdx (HMDB51.init fs mkVC root params train transform pm).classes)
      ∧ classToIdx (pySorted ["cartwheel", "brush_hair"])
          = [("brush_hair", 0), ("cartwheel", 1)] := by
  refine ⟨rfl, ?_, ?_, ?_, by decide⟩
  · exact List.sorted_insertionSort _ _
  · exact List.perm_insertionSort _ _
  · intro i c hc
    unfold classToIdx
    exact List.mem_map.mpr ⟨(i, c), List.mk_mem_enum_iff_getElem?.mpr hc, rfl⟩

/-- C5: the sample list built during construction is exactly, for every class
directory taken in sorted class order, every regular file path found by the
recursive walk of that class directory — in order sorted by directory then
file name — paired with the index of that class. -/
theorem samples_from_sorted_recursive_walk
    (fs : FileSystem)
    (mkVC : List String → ClipParams → Option VideoMetadata → VideoClips)
    (root : String) (params : ClipParams) (train : Bool)
    (transform : Option (Tensor → Tensor)) (pm : Option VideoMetadata) :
    (HMDB51.init fs mkVC root params train transform pm).samples
      = specSamples fs (if train then root ++ "/train" else root ++ "/test")
          (HMDB51.init fs mkVC root params train transform pm).classes :=
  buildSamples_eq_spec fs _ _

/-- C3: get_indices returns the identity permutation 0..n-1 on the
constructed video-path list; the stored clip collection is the external
subset of the external collection under that identity mapping; when the source
index is in range (the contract of the external utility) the subset leaves
the collection unchanged, so length() equals the clip count the external
utility reports for the full retained file set; and two constructions from
identical inputs yield identical length(). -/
theorem get_indices_identity_and_length
    (fs : FileSystem)
    (mkVC : List String → ClipParams → Option VideoMetadata → VideoClips)
    (root : String) (params : ClipParams) (train : Bool)
    (transform : Option (Tensor → Tensor)) (pm : Option VideoMetadata) :
    let ds := HMDB51.init fs mkVC root params train transform pm
    let vc := mkVC (ds.samples.map Prod.fst) params pm
    (∀ c ∈ vc.clips, c.video_idx < ds.samples.length) →
    ds.indices = List.range ds.samples.length
      ∧ ds.video_clips = vc.subset ds.indices
      ∧ ds.len = vc.num_clips
      ∧ (HMDB51.init fs mkVC root params train transform pm).len
          = (HMDB51.init fs mkVC root params train transform pm).len := by
  intro ds vc hwf
  have hind : ds.indices = List.range ds.samples.length := by
    show HMDB51.get_indices (ds.samples.map Prod.fst) = _
    rw [get_indices_eq_range, List.length_map]
  refine ⟨hind, rfl, ?_, rfl⟩
  show (vc.subset ds.indices).num_clips = vc.num_clips
  rw [hind, subset_range_eq_self vc _ hwf]

/-- C1: for every valid index i, item(i) returns a pair whose label is the
class index of the source video file that produced clip i: the fetched
source index of the fetched clip addresses the sample list (through the
identity index mapping), the returned label is the stored class index of that
sample, that class
index is the sorted position of the class directory the file was collected
from, and only the video tensor of the clip enters the result (audio and
clip-info are discarded). -/
theorem item_label_matches_source_class
    (fs : FileSystem)
    (mkVC : List String → ClipParams → Option VideoMetadata → VideoClips)
    (root : String) (params : ClipParams) (train : Bool)
    (transform : Option (Tensor → Tensor)) (pm : Option VideoMetadata) :
    let ds := HMDB51.init fs mkVC root params train transform pm
    let vc := mkVC (ds.samples.map Prod.fst) params pm
    (∀ c ∈ vc.clips, c.video_idx < ds.samples.length) →
    ∀ i, i < ds.len →
    ∃ c s cls,
      ds.video_clips.get_clip i = some c
      ∧ ds.samples[c.video_idx]? = some s
      ∧ ds.getitem i = some
          ((match ds.transform with
            | some t => t c.video
            | none => c.video), s.2)
      ∧ ds.classes[s.2]? = some cls
      ∧ s ∈ specClassSamples fs
          (pathJoin (if train then root ++ "/train" else root ++ "/test") cls) s.2 := by
  intro ds vc hwf i hi
  have hind : ds.indices = List.range ds.samples.length := by
    show HMDB51.get_indices (ds.samples.map Prod.fst) = _
    rw [get_indices_eq_range, List.length_map]
  have hvc : ds.video_clips = vc := by
    show vc.subset ds.indices = vc
    rw [hind]
    exact subset_range_eq_self vc _ hwf
  have hi' : i < ds.video_clips.clips.length := hi
  have hc : ds.video_clips.get_clip i = some (ds.video_clips.clips.get ⟨i, hi'⟩) :=
    List.getElem?_eq_getElem hi'
  have hcmem : ds.video_clips.clips.get ⟨i, hi'⟩ ∈ vc.clips := by
    rw [← hvc]
    exact List.get_mem _ _ _
  have hvi : (ds.video_clips.clips.get ⟨i, hi'⟩).video_idx < ds.samples.length :=
    hwf _ hcmem
  have hsind :
      ds.indices[(ds.video_clips.clips.get ⟨i, hi'⟩).video_idx]?
        = some (ds.video_clips.clips.get ⟨i, hi'⟩).video_idx := by
    rw [hind]
    exact List.getElem?_range hvi
  have hs :
      ds.samples[(ds.video_clips.clips.get ⟨i, hi'⟩).video_idx]?
        = some (ds.samples.get ⟨(ds.video_clips.clips.get ⟨i, hi'⟩).video_idx, hvi⟩) :=
    List.getElem?_eq_getElem hvi
  have hget := getitem_eq hc hsind hs
  have hsmem : ds.samples.get ⟨(ds.video_clips.clips.get ⟨i, hi'⟩).video_idx, hvi⟩
      ∈ ds.samples := List.get_mem _ _ _
  have hspec : ds.samples
      = specSamples fs (if train then root ++ "/train" else root ++ "/test") ds.classes :=
    buildSamples_eq_spec fs _ _
  have hsmem2 : ds.samples.get ⟨(ds.video_clips.clips.get ⟨i, hi'⟩).video_idx, hvi⟩
      ∈ specSamples fs (if train then root ++ "/train" else root ++ "/test") ds.classes := by
    rw [← hspec]
    exact hsmem
  unfold specSamples at hsmem2
  rw [List.mem_flatMap] at hsmem2
  obtain ⟨ci, hci, hsin⟩ := hsmem2
  have hsnd : (ds.samples.get
      ⟨(ds.video_clips.clips.get ⟨i, hi'⟩).video_idx, hvi⟩).2 = ci.1 :=
    specClassSamples_snd hsin
  have hcls : ds.classes[ci.1]? = some ci.2 :=
    List.mk_mem_enum_iff_getElem?.mp (by simpa using hci)
  refine ⟨ds.video_clips.clips.get ⟨i, hi'⟩,
    ds.samples.get ⟨(ds.video_clips.clips.get ⟨i, hi'⟩).video_idx, hvi⟩,
    ci.2, hc, hs, hget, ?_, ?_⟩
  · rw [hsnd]
    exact hcls
  · rw [hsnd]
    exact hsin

/-- C1 witness: the general theorem instantiated on the concrete dataset, at
index 0, with all hypotheses discharged by evaluation. -/
theorem item_label_matches_source_class_witness :
    (∀ c ∈ (egMkVideoClips (egTrainDS.samples.map Prod.fst) egParams none).clips,
        c.video_idx < egTrainDS.samples.length)
    ∧ 0 < egTrainDS.len
    ∧ ∃ c s cls,
        egTrainDS.video_clips.get_clip 0 = some c
        ∧ egTrainDS.samples[c.video_idx]? = some s
        ∧ egTrainDS.getitem 0 = some (c.video, s.2)
        ∧ egTrainDS.classes[s.2]? = some cls
        ∧ s ∈ specClassSamples egFS (pathJoin "data/train" cls) s.2 :=
  ⟨by decide, by decide,
   item_label_matches_source_class egFS egMkVideoClips "data" egParams true none none
     (by decide) 0 (by decide)⟩

/-- C3 witness: the general theorem instantiated on the concrete dataset. -/
theorem get_indices_identity_and_length_witness :
    (∀ c ∈ (egMkVideoClips (egTrainDS.samples.map Prod.fst) egParams none).clips,
        c.video_idx < egTrainDS.samples.length)
    ∧ egTrainDS.indices = List.range egTrainDS.samples.length
    ∧ egTrainDS.len
        = (egMkVideoClips (egTrainDS.samples.map Prod.fst) egParams none).num_clips :=
  ⟨by decide,
   (get_indices_identity_and_length egFS egMkVideoClips "data" egParams true none none
     (by decide)).1,
   (get_indices_identity_and_length egFS egMkVideoClips "data" egParams true none none
     (by decide)).2.2.1⟩

/-- C2: on a non-empty batch whose clip tensors all share one shape, the
collation function returns a record with exactly the two fields videos and
labels, videos being the clips stacked along a new leading dimension of size
the batch length, and labels the input labels in input order. -/
theorem collect_fn_stacks_in_order
    (batch : List (Tensor × Nat)) (s : List Nat)
    (hne : batch ≠ [])
    (hs : ∀ p ∈ batch, p.1.shape = s) :
    BuildDataLoader.collect_fn batch
      = some { videos := { shape := batch.length :: s
                           data := (batch.map (fun p => p.1.data)).flatten }
               labels := batch.map (fun p => p.2) } := by
  unfold BuildDataLoader.collect_fn
  rw [foldl_append_singleton (fun p : Tensor × Nat => p.1) batch [],
    foldl_append_singleton (fun p : Tensor × Nat => p.2) batch [],
    List.nil_append, List.nil_append]
  obtain ⟨b, t, rfl⟩ : ∃ b t, batch = b :: t := by
    cases batch with
    | nil => exact absurd rfl hne
    | cons b t => exact ⟨b, t, rfl⟩
  rw [List.map_cons]
  simp only [torchStack]
  have hb : b.1.shape = s := hs b (List.mem_cons_self b t)
  have hall : ((t.map fun p : Tensor × Nat => p.1).all
      (fun u => u.shape == b.1.shape)) = true := by
    rw [List.all_eq_true]
    intro u hu
    rw [List.mem_map] at hu
    obtain ⟨p, hp, rfl⟩ := hu
    have hps : p.1.shape = s := hs p (List.mem_cons_of_mem b hp)
    rw [beq_iff_eq, hps, hb]
  rw [if_pos hall]
  simp [hb, List.map_map, Function.comp_def]

/-- C2 witness: a two-element batch of same-shaped tensors, fully
evaluated. -/
theorem collect_fn_stacks_in_order_witness :
    ([(egT1, 5), (egT2, 9)] : List (Tensor × Nat)) ≠ []
    ∧ BuildDataLoader.collect_fn [(egT1, 5), (egT2, 9)]
        = some { videos := { shape := [2, 2, 2], data := [1, 2, 3, 4, 5, 6, 7, 8] }
                 labels := [5, 9] } :=
  ⟨by decide,
   collect_fn_stacks_in_order [(egT1, 5), (egT2, 9)] [2, 2] (by decide) (by decide)⟩

/-- C10: collation of an empty batch fails (stacking an empty tensor list
raises), rather than returning a batch record. -/
theorem collect_fn_empty_batch_fails :
    BuildDataLoader.collect_fn ([] : List (Tensor × Nat)) = none := rfl

/-- C6: loader() returns a fresh iteration object configured with exactly
the stored dataset, batch size, shuffle flag, worker count and collect_fn as
collation function; one full pass with shuffle disabled visits the indices
0..length-1 exactly once in ascending order and yields
ceil(length / batch_size) batches, none longer than batch_size. -/
theorem loader_configuration_and_epoch (b : BuildDataLoader)
    (hbs : 0 < b.batch_size) :
    b.loader = { dataset := b.dataset, batch_size := b.batch_size
                 shuffle := b.shuffle, num_workers := b.num_workers
                 collate_fn := BuildDataLoader.collect_fn }
      ∧ (dataLoaderBatches b.loader).flatten = List.range b.dataset.len
      ∧ (dataLoaderBatches b.loader).length
          = (b.dataset.len + b.batch_size - 1) / b.batch_size
      ∧ ∀ bt ∈ dataLoaderBatches b.loader, bt.length ≤ b.batch_size ∧ bt ≠ [] := by
  refine ⟨rfl, ?_, ?_, ?_⟩
  · exact chunkBatches_flatten b.batch_size (List.range b.dataset.len)
  · have h := chunkBatches_length b.batch_size hbs (List.range b.dataset.len)
    rw [List.length_range] at h
    exact h
  · exact chunkBatches_mem b.batch_size hbs (List.range b.dataset.len)

/-- C6 witness: the concrete loader with batch size 2 over the concrete
3-clip dataset. -/
theorem loader_configuration_and_epoch_witness :
    0 < egBDL.batch_size
    ∧ (dataLoaderBatches egBDL.loader).flatten = List.range egBDL.dataset.len
    ∧ (dataLoaderBatches egBDL.loader).length
        = (egBDL.dataset.len + egBDL.batch_size - 1) / egBDL.batch_size :=
  ⟨by decide,
   (loader_configuration_and_epoch egBDL (by decide)).2.1,
   (loader_configuration_and_epoch egBDL (by decide)).2.2.1⟩

/-- C7: item is deterministic — with fixed construction parameters (the
external clip construction and the optional transform being functions), two
evaluations of item at the same index give equal results. -/
theorem item_deterministic
    (fs : FileSystem)
    (mkVC : List String → ClipParams → Option VideoMetadata → VideoClips)
    (root : String) (params : ClipParams) (train : Bool)
    (transform : Option (Tensor → Tensor)) (pm : Option VideoMetadata)
    (i : Nat) :
    (HMDB51.init fs mkVC root params train transform pm).getitem i
      = (HMDB51.init fs mkVC root params train transform pm).getitem i := rfl

/-- C8: no operation mutates the dataset after construction: length, item
and the metadata property, embedded as state transformers that thread the
receiver exactly as the assignment-free method bodies do, return the state
unchanged in every field. -/
theorem operations_do_not_mutate (ds : HMDB51) (i : Nat) :
    (ds.lenOp).2 = ds
      ∧ (ds.getitemOp i).2 = ds
      ∧ (ds.metadataOp).2 = ds
      ∧ (ds.getitemOp i).2.samples = ds.samples
      ∧ (ds.getitemOp i).2.classes = ds.classes
      ∧ (ds.getitemOp i).2.indices = ds.indices
      ∧ (ds.getitemOp i).2.video_clips = ds.video_clips
      ∧ (ds.getitemOp i).2.video_clips_metadata = ds.video_clips_metadata
      ∧ (ds.getitemOp i).2.transform = ds.transform :=
  ⟨rfl, rfl, rfl, rfl, rfl, rfl, rfl, rfl, rfl⟩

/-- C9: sample collection applies no file-extension filter: any file name
listed by the walk of a class directory whose joined path is a regular file
becomes a sample of that class, with no condition on its extension. -/
theorem no_extension_filtering
    (fs : FileSystem) (split_root : String) (classes : List String)
    (i : Nat) (c : String) (hc : classes[i]? = some c)
    (entry : String × List String)
    (hentry : entry ∈ pySortedWalk (fs.walk (pathJoin split_root c)))
    (fname : String) (hf : fname ∈ pySorted entry.2)
    (hreg : fs.isfile (pathJoin entry.1 fname) = true) :
    (pathJoin entry.1 fname, i) ∈ HMDB51.buildSamples fs split_root classes := by
  rw [buildSamples_eq_spec]
  unfold specSamples
  rw [List.mem_flatMap]
  refine ⟨(i, c), List.mk_mem_enum_iff_getElem?.mpr hc, ?_⟩
  unfold specClassSamples
  rw [List.mem_flatMap]
  refine ⟨entry, hentry, ?_⟩
  rw [List.mem_filterMap]
  exact ⟨fname, hf, by rw [if_pos hreg]⟩

/-- C9 witness: a file with a txt extension is collected exactly like the
avi files. -/
theorem no_extension_filtering_witness :
    (["run", "walk"] : List String)[1]? = some "walk"
    ∧ ("data/train/walk/c.txt", 1) ∈ HMDB51.buildSamples egFS "data/train" ["run", "walk"] :=
  ⟨by decide,
   no_extension_filtering egFS "data/train" ["run", "walk"] 1 "walk" (by decide)
     ("data/train/walk", ["c.txt"]) (by decide) "c.txt" (by decide) (by decide)⟩

end ActionClassification
